import Mathlib

/-!
Shallow embedding of the `geometry-deez` credential-handling core
(`src/user.rs` and `src/gjp2.rs`) and proofs about it.

Strings are embedded as `List Char`; all sanitized strings in this code are
pure ASCII, for which Rust's byte indices coincide with character indices
(proved below as the byte-boundary safety property).
-/

namespace GeometryDeez

/-! ## Character classes (from `char::is_ascii_*` and the allowed-chars consts) -/

/-- `char::is_ascii_digit`: `'0'..='9'`. -/
def isAsciiDigit (c : Char) : Bool :=
  48 ≤ c.toNat && c.toNat ≤ 57

/-- `char::is_ascii_alphabetic`: `'A'..='Z' | 'a'..='z'`. -/
def isAsciiAlphabetic (c : Char) : Bool :=
  (65 ≤ c.toNat && c.toNat ≤ 90) || (97 ≤ c.toNat && c.toNat ≤ 122)

/-- `char::is_ascii_alphanumeric`: alphabetic or digit. -/
def isAsciiAlphanumeric (c : Char) : Bool :=
  isAsciiAlphabetic c || isAsciiDigit c

/-- `const PASSWORD_ALLOWED_SPECIAL_CHARS: &str = "-_";` -/
def PASSWORD_ALLOWED_SPECIAL_CHARS : List Char := ['-', '_']

/-- `const EMAIL_ALLOWED_SPECIAL_CHARS: &str = "-_@.";` -/
def EMAIL_ALLOWED_SPECIAL_CHARS : List Char := ['-', '_', '@', '.']

/-- `const HANDLE_ALLOWED_SPECIAL_CHARS: &str = "-_,' ";` -/
def HANDLE_ALLOWED_SPECIAL_CHARS : List Char := ['-', '_', ',', Char.ofNat 39, ' ']

/-- `fn filter_chars(input: &str, predicate: ...) -> String`:
keep exactly the characters satisfying the predicate, in order. -/
def filter_chars (input : List Char) (predicate : Char → Bool) : List Char :=
  input.filter predicate

/-! ## `Name` (src/user.rs) -/

def NAME_LEN_MIN : Nat := 3
def NAME_LEN_MAX : Nat := 14

structure Name where
  chars : List Char
deriving DecidableEq, Repr

inductive NameError where
  | Empty
  | TooShort
deriving DecidableEq, Repr

def Name.as_str (n : Name) : List Char := n.chars

/-- `Name::parse` from src/user.rs. The Rust slice `sanitized[0..NAME_LEN_MAX]`
is a byte slice; the sanitized string is all-ASCII so it equals `List.take`. -/
def Name.parse (name : List Char) : Except NameError Name :=
  let sanitized := filter_chars name isAsciiAlphanumeric
  if sanitized.isEmpty then
    .error .Empty
  else
    let sanitized_len := sanitized.length
    if sanitized_len < NAME_LEN_MIN then
      .error .TooShort
    else if sanitized_len > NAME_LEN_MAX then
      .ok ⟨sanitized.take NAME_LEN_MAX⟩
    else
      .ok ⟨sanitized⟩

/-! ## `Password` (src/user.rs) -/

def PASSWORD_LEN_MIN : Nat := 6
def PASSWORD_LEN_MAX : Nat := 19

structure Password where
  chars : List Char
deriving DecidableEq, Repr

inductive PasswordError where
  | Empty
  | TooShort
deriving DecidableEq, Repr

def Password.as_str (p : Password) : List Char := p.chars

/-- The filter predicate of `Password::parse`. -/
def passwordAllowed (ch : Char) : Bool :=
  isAsciiAlphanumeric ch || PASSWORD_ALLOWED_SPECIAL_CHARS.contains ch

/-- `Password::parse` from src/user.rs. -/
def Password.parse (password : List Char) : Except PasswordError Password :=
  let sanitized := filter_chars password passwordAllowed
  if sanitized.isEmpty then
    .error .Empty
  else
    let sanitized_len := sanitized.length
    if sanitized_len < PASSWORD_LEN_MIN then
      .error .TooShort
    else if sanitized_len > PASSWORD_LEN_MAX then
      .ok ⟨sanitized.take PASSWORD_LEN_MAX⟩
    else
      .ok ⟨sanitized⟩

/-! ## `Email` (src/user.rs) -/

def EMAIL_LEN_MIN : Nat := 4
def EMAIL_LEN_MAX : Nat := 49

structure Email where
  chars : List Char
deriving DecidableEq, Repr

inductive EmailError where
  | Empty
  | TooShort
  | Malformed
deriving DecidableEq, Repr

def Email.as_str (e : Email) : List Char := e.chars

/-- The filter predicate of `Email::parse`. -/
def emailAllowed (ch : Char) : Bool :=
  isAsciiAlphanumeric ch || EMAIL_ALLOWED_SPECIAL_CHARS.contains ch

/-- `str::find` on the embedded string: byte index of the first occurrence.
On the all-ASCII strings this code applies it to, byte index = char index. -/
def findFirst (input : List Char) (ch : Char) : Option Nat :=
  match input with
  | [] => none
  | x :: xs => if x = ch then some 0 else (findFirst xs ch).map (· + 1)

/-- `Email::find_last` from src/user.rs: reverse the string, find the first
occurrence there, and mirror the index (`input.len() - i - 1`). -/
def Email.find_last (input : List Char) (ch : Char) : Option Nat :=
  (findFirst input.reverse ch).map (fun i => input.length - i - 1)

/-- `Email::parse` from src/user.rs. The `.nth(0).expect(..)` is embedded as
`headD`; the default is unreachable because emptiness was already checked. -/
def Email.parse (email : List Char) : Except EmailError Email :=
  let sanitized := filter_chars email emailAllowed
  if sanitized.isEmpty then
    .error .Empty
  else
    match Email.find_last sanitized '@' with
    | none => .error .Malformed
    | some at_ =>
      if at_ = 0 then
        .error .Malformed
      else
        match Email.find_last (sanitized.drop at_) '.' with
        | none => .error .Malformed
        | some j =>
          let dot := j + at_
          let sanitized_len := sanitized.length
          if dot + 1 = sanitized_len then
            .error .Malformed
          else if (sanitized.take at_).all isAsciiDigit then
            .error .Malformed
          else
            let first_char := sanitized.headD (Char.ofNat 0)
            if ¬ isAsciiAlphabetic first_char then
              .error .Malformed
            else if sanitized_len < EMAIL_LEN_MIN then
              .error .TooShort
            else if sanitized_len > EMAIL_LEN_MAX then
              .ok ⟨sanitized.take EMAIL_LEN_MAX⟩
            else
              .ok ⟨sanitized⟩

/-- Discriminator: does an `Email::parse` result carry the TooShort error? -/
def resultIsTooShort (r : Except EmailError Email) : Bool :=
  match r with
  | .error .TooShort => true
  | _ => false

/-! ## `SocialMediaHandles` (src/user.rs) -/

structure SocialMediaHandles where
  youtube : Option (List Char)
  twitter : Option (List Char)
  twitch : Option (List Char)
deriving DecidableEq, Repr

/-- The filter predicate of `sanitize_social_media_handle`. -/
def handleAllowed (ch : Char) : Bool :=
  isAsciiAlphanumeric ch || HANDLE_ALLOWED_SPECIAL_CHARS.contains ch

/-- `SocialMediaHandles::sanitize_social_media_handle`. -/
def SocialMediaHandles.sanitize_social_media_handle (handle : List Char) :
    Option (List Char) :=
  let sanitized := filter_chars handle handleAllowed
  match sanitized with
  | [] => none
  | _ => some sanitized

/-- `SocialMediaHandles::new`. -/
def SocialMediaHandles.new (youtube twitter twitch : List Char) :
    SocialMediaHandles where
  youtube := SocialMediaHandles.sanitize_social_media_handle youtube
  twitter := SocialMediaHandles.sanitize_social_media_handle twitter
  twitch := SocialMediaHandles.sanitize_social_media_handle twitch

/-- `SocialMediaHandles::set_youtube` (the `&mut self` chaining is embedded as
returning the updated record). -/
def SocialMediaHandles.set_youtube (h : SocialMediaHandles)
    (youtube : List Char) : SocialMediaHandles :=
  { h with youtube := SocialMediaHandles.sanitize_social_media_handle youtube }

/-- `SocialMediaHandles::set_twitter`. -/
def SocialMediaHandles.set_twitter (h : SocialMediaHandles)
    (twitter : List Char) : SocialMediaHandles :=
  { h with twitter := SocialMediaHandles.sanitize_social_media_handle twitter }

/-- `SocialMediaHandles::set_twitch`. -/
def SocialMediaHandles.set_twitch (h : SocialMediaHandles)
    (twitch : List Char) : SocialMediaHandles :=
  { h with twitch := SocialMediaHandles.sanitize_social_media_handle twitch }

/-! ## GJP2 (src/gjp2.rs)

The gjp2 code consumes two external primitives, SHA-1 and bcrypt, that are
not part of this repository. SHA-1 is kept abstract (a parameter
`sha1 : List Nat → List Nat` mapping the absorbed byte stream to the digest);
bcrypt is modelled below from the spec's description of the consumed
primitive. Byte streams are UTF-8 encodings of the embedded strings. -/

/-- UTF-8 encoding of a single character (all characters this code feeds to
the digest are ASCII, where this is the single byte `c.toNat`). -/
def utf8Bytes (c : Char) : List Nat :=
  let n := c.toNat
  if n < 128 then [n]
  else if n < 2048 then [192 + n / 64, 128 + n % 64]
  else if n < 65536 then [224 + n / 4096, 128 + n / 64 % 64, 128 + n % 64]
  else [240 + n / 262144, 128 + n / 4096 % 64, 128 + n / 64 % 64, 128 + n % 64]

/-- UTF-8 byte stream of an embedded string. -/
def strBytes (s : List Char) : List Nat :=
  (s.map utf8Bytes).flatten

/-- `const SUFFIX: &str = "mI29fmAnxgTs";` -/
def SUFFIX : List Char := ['m', 'I', '2', '9', 'f', 'm', 'A', 'n', 'x', 'g', 'T', 's']

/-- The `sha1::Sha1` digest object: its state is the byte stream absorbed
since the last reset. -/
structure Sha1 where
  absorbed : List Nat
deriving DecidableEq, Repr

/-- `Sha1::new()` / `Sha1::default()`: a freshly initialized digest. -/
def Sha1.init : Sha1 := ⟨[]⟩

/-- `Digest::update`: absorb more bytes. -/
def Sha1.update (s : Sha1) (data : List Nat) : Sha1 :=
  ⟨s.absorbed ++ data⟩

/-- `Digest::finalize` of a clone of the digest, with the compression
function `sha1` abstract. -/
def Sha1.finalize (sha1 : List Nat → List Nat) (s : Sha1) : List Nat :=
  sha1 s.absorbed

/-- `Digest::reset`: back to the initial state. -/
def Sha1.reset (_ : Sha1) : Sha1 := ⟨[]⟩

/-- `bcrypt::DEFAULT_COST`. -/
def DEFAULT_COST : Nat := 12

/-- `bcrypt::BcryptError` (opaque to this crate). -/
structure BcryptError where
  code : Nat
deriving DecidableEq, Repr

/-- Modelled from the spec: the self-describing bcrypt encoded string
`$2b$<cost>$<22-char-salt><31-char-hash>`. The encoding determines and is
determined by the cost, the salt and the key-derivation output, so it is
embedded as that triple; the derivation output is idealized as the (72-byte
truncated) password bytes, which makes the primitive's check
`verify(t, hash(p)) = (t == p)` hold exactly. -/
structure BcryptHashStr where
  cost : Nat
  salt : Nat
  key : List Nat
deriving DecidableEq, Repr

/-- Modelled from the spec: `bcrypt::hash_with_salt`-style core — hash
`password` at `cost` with the given `salt`. bcrypt truncates its input to
72 bytes. -/
def bcrypt_hash_raw (password : List Nat) (cost : Nat) (salt : Nat) :
    BcryptHashStr :=
  ⟨cost, salt, password.take 72⟩

/-- Modelled from the spec: `bcrypt::verify` — re-derive with the cost and
salt read from the stored verifier and compare (idealized as equality of the
truncated password bytes). -/
def bcrypt_verify_raw (text : List Nat) (stored : BcryptHashStr) : Bool :=
  if text.take 72 = stored.key then true else false

/-- `bcrypt::hash(_, DEFAULT_COST)` draws a random salt and may fail; this
is the fallible interface `generate_gjp2` calls, kept abstract in theorems
(`bchash` parameter). Its ideal instance never fails. -/
def idealBcryptHash (password : List Nat) (cost : Nat) (salt : Nat) :
    Except BcryptError BcryptHashStr :=
  .ok (bcrypt_hash_raw password cost salt)

/-- Ideal instance of the fallible `bcrypt::verify` interface. -/
def idealBcryptVerify (text : List Nat) (stored : BcryptHashStr) :
    Except BcryptError Bool :=
  .ok (bcrypt_verify_raw text stored)

/-- `pub struct Gjp2(String)`: wraps the stored bcrypt encoded verifier. -/
structure Gjp2 where
  hash : BcryptHashStr
deriving DecidableEq, Repr

/-- `Gjp2::new`. -/
def Gjp2.new (hash : BcryptHashStr) : Gjp2 := ⟨hash⟩

/-- `Gjp2::as_str`: the stored verifier (its encoded-triple embedding). -/
def Gjp2.as_hash (g : Gjp2) : BcryptHashStr := g.hash

/-- `pub struct Gjp2Error(pub BcryptError)`. -/
structure Gjp2Error where
  cause : BcryptError
deriving DecidableEq, Repr

/-- `fn verify_gjp2(text: &str, gjp2: Gjp2)`: delegates directly to
`bcrypt::verify(text, gjp2.as_str())`, wrapping any bcrypt error. -/
def verify_gjp2 (bcverify : List Nat → BcryptHashStr → Except BcryptError Bool)
    (text : List Char) (gjp2 : Gjp2) : Except Gjp2Error Bool :=
  match bcverify (strBytes text) gjp2.as_hash with
  | .ok b => .ok b
  | .error e => .error ⟨e⟩

/-- `pub struct Gjp2Generator { digest: Sha1 }`. -/
structure Gjp2Generator where
  digest : Sha1
deriving DecidableEq, Repr

/-- `Gjp2Generator::new(digest: Sha1)`: stores the caller's digest as-is. -/
def Gjp2Generator.new (digest : Sha1) : Gjp2Generator :=
  ⟨digest⟩

/-- `Gjp2Generator::generate_gjp2`: absorb `password.as_str() + SUFFIX`,
finalize a clone, reset the digest, then bcrypt-hash the SHA-1 output at
`DEFAULT_COST`. The `&mut self` is embedded by returning the updated
generator alongside the result; `salt` is the randomness this call's
`bcrypt::hash` draws. -/
def Gjp2Generator.generate_gjp2 (sha1 : List Nat → List Nat)
    (bchash : List Nat → Nat → Nat → Except BcryptError BcryptHashStr)
    (salt : Nat) (g : Gjp2Generator) (password : Password) :
    Except Gjp2Error Gjp2 × Gjp2Generator :=
  let digest := g.digest.update (strBytes (password.as_str ++ SUFFIX))
  let sha1_hash := digest.finalize sha1
  let digest := digest.reset
  (match bchash sha1_hash DEFAULT_COST salt with
   | .ok bcrypt_hash => .ok (Gjp2.new bcrypt_hash)
   | .error e => .error ⟨e⟩,
   { digest })

/-! ## Spec-worded definitions

These re-state the parsers following the spec's and claims' wording, to be
compared with the embeddings above. -/

/-- The index of the last occurrence of `ch` in `l`, written as a direct
recursion ("find the last `@` in the filtered string"). -/
def lastIdx (l : List Char) (ch : Char) : Option Nat :=
  match l with
  | [] => none
  | x :: xs =>
    match lastIdx xs ch with
    | some i => some (i + 1)
    | none => if x = ch then some 0 else none

/-- `Name::parse` as the claim words it: keep only ASCII alphanumerics, then
empty ⇒ Empty, length < 3 ⇒ TooShort, length > 14 ⇒ first 14 characters,
otherwise the filtered string verbatim. -/
def Name.parseSpec (name : List Char) : Except NameError Name :=
  let kept := name.filter isAsciiAlphanumeric
  if kept = [] then .error .Empty
  else if kept.length < 3 then .error .TooShort
  else if 14 < kept.length then .ok ⟨kept.take 14⟩
  else .ok ⟨kept⟩

/-- `Password::parse` as the claim words it: keep ASCII alphanumerics plus
`-` and `_`, with limits 6..=19. -/
def Password.parseSpec (password : List Char) : Except PasswordError Password :=
  let kept := password.filter (fun c => isAsciiAlphanumeric c || c = '-' || c = '_')
  if kept = [] then .error .Empty
  else if kept.length < 6 then .error .TooShort
  else if 19 < kept.length then .ok ⟨kept.take 19⟩
  else .ok ⟨kept⟩

/-- `Email::parse` as claim C3 words it: filter to ASCII alphanumerics plus
`-` `_` `@` `.`, then apply the checks in order, first failing check wins:
empty ⇒ Empty; no `@` ⇒ Malformed; last `@` at index 0 ⇒ Malformed; no `.`
at or after the last `@` ⇒ Malformed; that `.` final ⇒ Malformed; all
characters before the last `@` digits ⇒ Malformed; first character not
alphabetic ⇒ Malformed; length < 4 ⇒ TooShort; length > 49 ⇒ first 49
characters; otherwise verbatim. -/
def Email.parseSpec (email : List Char) : Except EmailError Email :=
  let f := email.filter emailAllowed
  if f.length = 0 then .error .Empty
  else
    match lastIdx f '@' with
    | none => .error .Malformed
    | some a =>
      if a = 0 then .error .Malformed
      else
        match
          (match lastIdx f '.' with
           | some d => if a ≤ d then some d else none
           | none => none) with
        | none => .error .Malformed
        | some d =>
          if d + 1 = f.length then .error .Malformed
          else if (f.take a).all isAsciiDigit then .error .Malformed
          else
            match f with
            | [] => .error .Empty
            | c0 :: _ =>
              if ¬ isAsciiAlphabetic c0 then .error .Malformed
              else if f.length < 4 then .error .TooShort
              else if 49 < f.length then .ok ⟨f.take 49⟩
              else .ok ⟨f⟩

/-! ## Helper lemmas -/

theorem findFirst_lt_length {l : List Char} {c : Char} {i : Nat}
    (h : findFirst l c = some i) : i < l.length := by
  induction l generalizing i with
  | nil => simp [findFirst] at h
  | cons x xs ih =>
    simp only [findFirst] at h
    split at h
    · cases h
      simp
    · rcases hf : findFirst xs c with _ | j <;> rw [hf] at h
      · simp at h
      · simp only [Option.map_some'] at h
        cases h
        have := ih hf
        simp
        omega

theorem findFirst_append (a b : List Char) (c : Char) :
    findFirst (a ++ b) c =
      match findFirst a c with
      | some i => some i
      | none => (findFirst b c).map (· + a.length) := by
  induction a with
  | nil =>
    simp only [List.nil_append, findFirst, List.length_nil]
    rcases findFirst b c with _ | i <;> simp
  | cons x xs ih =>
    by_cases hxc : x = c
    · simp [findFirst, hxc]
    · have l1 : findFirst ((x :: xs) ++ b) c = (findFirst (xs ++ b) c).map (· + 1) := by
        simp [findFirst, hxc]
      have l2 : findFirst (x :: xs) c = (findFirst xs c).map (· + 1) := by
        simp [findFirst, hxc]
      rw [l1, l2, ih]
      rcases hx : findFirst xs c with _ | i <;> simp only [hx]
      · rcases findFirst b c with _ | j <;> simp
        omega
      · simp

theorem find_last_eq_lastIdx (l : List Char) (c : Char) :
    Email.find_last l c = lastIdx l c := by
  induction l with
  | nil => rfl
  | cons x xs ih =>
    unfold Email.find_last at ih ⊢
    rw [List.reverse_cons, findFirst_append]
    rcases hf : findFirst xs.reverse c with _ | i
    · rw [hf] at ih
      simp only [Option.map_none'] at ih
      simp only [lastIdx, ← ih, findFirst, Option.map_none']
      split
      · simp
      · simp
    · rw [hf] at ih
      have hi : i < xs.length := by
        have := findFirst_lt_length hf
        simpa using this
      simp only [Option.map_some'] at ih ⊢
      simp only [lastIdx, ← ih]
      congr 1
      simp only [List.length_cons]
      omega

theorem lastIdx_getElem {l : List Char} {c : Char} {i : Nat}
    (h : lastIdx l c = some i) : i < l.length ∧ l[i]? = some c := by
  induction l generalizing i with
  | nil => simp [lastIdx] at h
  | cons x xs ih =>
    simp only [lastIdx] at h
    rcases hx : lastIdx xs c with _ | j <;> simp only [hx] at h
    · split at h
      · cases h
        refine ⟨by simp, ?_⟩
        simp_all
      · simp at h
    · cases h
      obtain ⟨hj, hg⟩ := ih hx
      refine ⟨by simp; omega, ?_⟩
      simpa using hg

theorem lastIdx_drop (l : List Char) (c : Char) (a : Nat) :
    lastIdx (l.drop a) c =
      match lastIdx l c with
      | some d => if a ≤ d then some (d - a) else none
      | none => none := by
  induction a generalizing l with
  | zero =>
    simp only [List.drop_zero]
    rcases lastIdx l c with _ | d <;> simp
  | succ a ih =>
    cases l with
    | nil => simp [lastIdx]
    | cons x xs =>
      rw [List.drop_succ_cons, ih xs]
      simp only [lastIdx]
      rcases hx : lastIdx xs c with _ | i <;> simp only [hx]
      · by_cases hxc : x = c <;> simp [hxc]
      · rcases Nat.lt_or_ge i a with hia | hia
        · rw [if_neg (by omega), if_neg (by omega)]
        · rw [if_pos hia, if_pos (by omega)]
          congr 1
          omega

theorem filter_idem (l : List Char) (p : Char → Bool) :
    (l.filter p).filter p = l.filter p := by
  rw [List.filter_eq_self]
  intro a ha
  exact (List.mem_filter.mp ha).2

theorem filter_take_filter (l : List Char) (p : Char → Bool) (k : Nat) :
    ((l.filter p).take k).filter p = (l.filter p).take k := by
  rw [List.filter_eq_self]
  intro a ha
  exact (List.mem_filter.mp (List.take_subset _ _ ha)).2

theorem strBytes_append (a b : List Char) :
    strBytes (a ++ b) = strBytes a ++ strBytes b := by
  simp [strBytes]

theorem isAsciiAlphanumeric_ascii {c : Char}
    (h : isAsciiAlphanumeric c = true) : c.toNat < 128 := by
  simp only [isAsciiAlphanumeric, isAsciiAlphabetic, isAsciiDigit,
    Bool.or_eq_true, Bool.and_eq_true, decide_eq_true_eq] at h
  omega

theorem passwordAllowed_ascii {c : Char}
    (h : passwordAllowed c = true) : c.toNat < 128 := by
  simp only [passwordAllowed, PASSWORD_ALLOWED_SPECIAL_CHARS,
    Bool.or_eq_true, List.contains_cons, List.contains_nil,
    beq_iff_eq, decide_eq_true_eq, Bool.or_false] at h
  rcases h with h | h | h
  · exact isAsciiAlphanumeric_ascii h
  · subst h; decide
  · subst h; decide

theorem emailAllowed_ascii {c : Char}
    (h : emailAllowed c = true) : c.toNat < 128 := by
  simp only [emailAllowed, EMAIL_ALLOWED_SPECIAL_CHARS,
    Bool.or_eq_true, List.contains_cons, List.contains_nil,
    beq_iff_eq, decide_eq_true_eq, Bool.or_false] at h
  rcases h with h | h | h | h | h
  · exact isAsciiAlphanumeric_ascii h
  · subst h; decide
  · subst h; decide
  · subst h; decide
  · subst h; decide

theorem strBytes_of_ascii (m : List Char) (h : ∀ c ∈ m, c.toNat < 128) :
    strBytes m = m.map Char.toNat := by
  induction m with
  | nil => rfl
  | cons x xs ih =>
    have hx : x.toNat < 128 := h x (by simp)
    have ihx := ih (fun c hc => h c (by simp [hc]))
    simp only [strBytes, List.map_cons, List.flatten_cons] at ihx ⊢
    rw [ihx, utf8Bytes, if_pos hx]
    rfl

/-! ## Claim theorems -/

/-- Claim C4: on a generator whose digest is in its initial state,
`generate_gjp2` returns the bcrypt hash, at `DEFAULT_COST`, of the SHA-1
digest of the password bytes followed exactly once by the 12-byte ASCII
suffix `mI29fmAnxgTs`; the only failure mode is a propagated bcrypt error
wrapped in `Gjp2Error`. -/
theorem generate_gjp2_fresh_spec (sha1 : List Nat → List Nat)
    (bchash : List Nat → Nat → Nat → Except BcryptError BcryptHashStr)
    (salt : Nat) (p : Password) :
    (Gjp2Generator.generate_gjp2 sha1 bchash salt
        (Gjp2Generator.new Sha1.init) p).1 =
      (match bchash (sha1 (strBytes p.as_str ++ strBytes SUFFIX))
          DEFAULT_COST salt with
       | .ok h => .ok (Gjp2.new h)
       | .error e => .error ⟨e⟩) ∧
    strBytes SUFFIX = [109, 73, 50, 57, 102, 109, 65, 110, 120, 103, 84, 115] := by
  constructor
  · simp only [Gjp2Generator.generate_gjp2, Gjp2Generator.new, Sha1.update,
      Sha1.finalize, Sha1.init, List.nil_append, strBytes_append]
  · rfl

/-- Claim C5: `generate_gjp2 p1` followed by `generate_gjp2 p2` on the same
generator instance yields the same verifier for `p2` as a fresh generator
does (the digest state is reset between calls), given the same bcrypt
randomness. -/
theorem generate_gjp2_reuse (sha1 : List Nat → List Nat)
    (bchash : List Nat → Nat → Nat → Except BcryptError BcryptHashStr)
    (salt1 salt2 : Nat) (p1 p2 : Password) :
    (Gjp2Generator.generate_gjp2 sha1 bchash salt2
        (Gjp2Generator.generate_gjp2 sha1 bchash salt1
          (Gjp2Generator.new Sha1.init) p1).2 p2) =
    Gjp2Generator.generate_gjp2 sha1 bchash salt2
        (Gjp2Generator.new Sha1.init) p2 := by
  rfl

/-- Claim C10: `Gjp2Generator::new` stores the caller's digest without
resetting it, so the first call hashes the previously absorbed bytes
followed by the password and suffix; the returned generator's digest is
reset, and a freshly-initialized digest gives the standard derivation. -/
theorem gjp2Generator_new_stores_digest (sha1 : List Nat → List Nat)
    (bchash : List Nat → Nat → Nat → Except BcryptError BcryptHashStr)
    (salt : Nat) (p : Password) (d : List Nat) :
    (Gjp2Generator.generate_gjp2 sha1 bchash salt
        (Gjp2Generator.new (Sha1.mk d)) p).1 =
      (match bchash (sha1 (d ++ (strBytes p.as_str ++ strBytes SUFFIX)))
          DEFAULT_COST salt with
       | .ok h => .ok (Gjp2.new h)
       | .error e => .error ⟨e⟩) ∧
    (Gjp2Generator.generate_gjp2 sha1 bchash salt
        (Gjp2Generator.new (Sha1.mk d)) p).2 = Gjp2Generator.new Sha1.init ∧
    (Gjp2Generator.generate_gjp2 sha1 bchash salt
        (Gjp2Generator.new (Sha1.mk [])) p).1 =
      (Gjp2Generator.generate_gjp2 sha1 bchash salt
        (Gjp2Generator.new Sha1.init) p).1 := by
  refine ⟨?_, rfl, rfl⟩
  simp only [Gjp2Generator.generate_gjp2, Gjp2Generator.new, Sha1.update,
    Sha1.finalize, strBytes_append]

/-- Claim C8: each setter of `SocialMediaHandles` replaces only its own
field and leaves the other two unchanged; the stored value is
`some sanitized` exactly when the filtered argument is non-empty, `none`
otherwise; and `new` sanitizes its three arguments independently. -/
theorem socialMediaHandles_frame :
    (∀ (h : SocialMediaHandles) (s : List Char),
      (h.set_youtube s).youtube = SocialMediaHandles.sanitize_social_media_handle s ∧
      (h.set_youtube s).twitter = h.twitter ∧
      (h.set_youtube s).twitch = h.twitch) ∧
    (∀ (h : SocialMediaHandles) (s : List Char),
      (h.set_twitter s).twitter = SocialMediaHandles.sanitize_social_media_handle s ∧
      (h.set_twitter s).youtube = h.youtube ∧
      (h.set_twitter s).twitch = h.twitch) ∧
    (∀ (h : SocialMediaHandles) (s : List Char),
      (h.set_twitch s).twitch = SocialMediaHandles.sanitize_social_media_handle s ∧
      (h.set_twitch s).youtube = h.youtube ∧
      (h.set_twitch s).twitter = h.twitter) ∧
    (∀ s : List Char,
      SocialMediaHandles.sanitize_social_media_handle s =
        if filter_chars s handleAllowed = [] then none
        else some (filter_chars s handleAllowed)) ∧
    (∀ y tw tt : List Char,
      SocialMediaHandles.new y tw tt =
        ⟨SocialMediaHandles.sanitize_social_media_handle y,
         SocialMediaHandles.sanitize_social_media_handle tw,
         SocialMediaHandles.sanitize_social_media_handle tt⟩) := by
  refine ⟨fun h s => ⟨rfl, rfl, rfl⟩, fun h s => ⟨rfl, rfl, rfl⟩,
    fun h s => ⟨rfl, rfl, rfl⟩, fun s => ?_, fun y tw tt => rfl⟩
  simp only [SocialMediaHandles.sanitize_social_media_handle]
  rcases hf : filter_chars s handleAllowed with _ | ⟨x, xs⟩ <;> simp

/-- Claim C9: under each parser's predicate the filtered string is pure
ASCII, so its UTF-8 byte stream is one byte per character: the byte length
equals the character count and taking the first `k` characters is the same
as taking the first `k` bytes — the Rust byte slices `sanitized[0..MAX]`
are at character boundaries. -/
theorem sanitized_slices_ascii :
    (∀ (l : List Char) (k : Nat),
      strBytes (filter_chars l isAsciiAlphanumeric) =
        (filter_chars l isAsciiAlphanumeric).map Char.toNat ∧
      (strBytes (filter_chars l isAsciiAlphanumeric)).length =
        (filter_chars l isAsciiAlphanumeric).length ∧
      strBytes ((filter_chars l isAsciiAlphanumeric).take k) =
        (strBytes (filter_chars l isAsciiAlphanumeric)).take k) ∧
    (∀ (l : List Char) (k : Nat),
      strBytes (filter_chars l passwordAllowed) =
        (filter_chars l passwordAllowed).map Char.toNat ∧
      (strBytes (filter_chars l passwordAllowed)).length =
        (filter_chars l passwordAllowed).length ∧
      strBytes ((filter_chars l passwordAllowed).take k) =
        (strBytes (filter_chars l passwordAllowed)).take k) ∧
    (∀ (l : List Char) (k : Nat),
      strBytes (filter_chars l emailAllowed) =
        (filter_chars l emailAllowed).map Char.toNat ∧
      (strBytes (filter_chars l emailAllowed)).length =
        (filter_chars l emailAllowed).length ∧
      strBytes ((filter_chars l emailAllowed).take k) =
        (strBytes (filter_chars l emailAllowed)).take k) := by
  have key : ∀ (p : Char → Bool), (∀ c, p c = true → c.toNat < 128) →
      ∀ (l : List Char) (k : Nat),
      strBytes (filter_chars l p) = (filter_chars l p).map Char.toNat ∧
      (strBytes (filter_chars l p)).length = (filter_chars l p).length ∧
      strBytes ((filter_chars l p).take k) = (strBytes (filter_chars l p)).take k := by
    intro p hp l k
    have hascii : ∀ c ∈ filter_chars l p, c.toNat < 128 :=
      fun c hc => hp c (List.mem_filter.mp hc).2
    have h1 : strBytes (filter_chars l p) = (filter_chars l p).map Char.toNat :=
      strBytes_of_ascii _ hascii
    have h2 : strBytes ((filter_chars l p).take k) =
        ((filter_chars l p).take k).map Char.toNat :=
      strBytes_of_ascii _ (fun c hc => hascii c (List.take_subset _ _ hc))
    refine ⟨h1, by simp [h1], ?_⟩
    rw [h1, h2, List.map_take]
  exact ⟨key _ (fun c => isAsciiAlphanumeric_ascii) ,
    key _ (fun c => passwordAllowed_ascii),
    key _ (fun c => emailAllowed_ascii)⟩

/-- Claim C7: `Name::parse` keeps only ASCII alphanumerics and
`Password::parse` keeps ASCII alphanumerics plus `-` and `_` (order and
multiplicity preserved); afterwards: empty ⇒ Empty, shorter than the
minimum (3 / 6) ⇒ TooShort, longer than the maximum (14 / 19) ⇒ the first
maximum-many characters, otherwise the filtered string verbatim. -/
theorem name_password_parse_eq_spec :
    (∀ s, Name.parse s = Name.parseSpec s) ∧
    (∀ s, Password.parse s = Password.parseSpec s) := by
  constructor
  · intro s
    by_cases h0 : s.filter isAsciiAlphanumeric = []
    · simp [Name.parse, Name.parseSpec, filter_chars, List.isEmpty_iff, h0]
    · by_cases h1 : (s.filter isAsciiAlphanumeric).length < 3
      · simp [Name.parse, Name.parseSpec, filter_chars, List.isEmpty_iff,
          NAME_LEN_MIN, h0, h1]
      · by_cases h2 : 14 < (s.filter isAsciiAlphanumeric).length
        · simp [Name.parse, Name.parseSpec, filter_chars, List.isEmpty_iff,
            NAME_LEN_MIN, NAME_LEN_MAX, h0, h1, h2]
        · simp [Name.parse, Name.parseSpec, filter_chars, List.isEmpty_iff,
            NAME_LEN_MIN, NAME_LEN_MAX, h0, h1, h2]
  · intro s
    have hpred : s.filter passwordAllowed =
        s.filter (fun c => isAsciiAlphanumeric c || c = '-' || c = '_') := by
      apply List.filter_congr
      intro c _
      simp [passwordAllowed, PASSWORD_ALLOWED_SPECIAL_CHARS,
        List.contains_cons, beq_eq_decide, Bool.or_assoc]
    by_cases h0 : s.filter passwordAllowed = []
    · simp [Password.parse, Password.parseSpec, filter_chars,
        List.isEmpty_iff, h0, ← hpred]
    · by_cases h1 : (s.filter passwordAllowed).length < 6
      · simp [Password.parse, Password.parseSpec, filter_chars,
          List.isEmpty_iff, PASSWORD_LEN_MIN, h0, h1, ← hpred]
      · by_cases h2 : 19 < (s.filter passwordAllowed).length
        · simp [Password.parse, Password.parseSpec, filter_chars,
            List.isEmpty_iff, PASSWORD_LEN_MIN, PASSWORD_LEN_MAX, h0, h1, h2,
            ← hpred]
        · simp [Password.parse, Password.parseSpec, filter_chars,
            List.isEmpty_iff, PASSWORD_LEN_MIN, PASSWORD_LEN_MAX, h0, h1, h2,
            ← hpred]

/-- Helper for claim C6: the parse result is never the TooShort error. -/
theorem email_tooShort_unreachable (s : List Char) :
    Email.parse s ≠ .error .TooShort := by
  intro h
  simp only [Email.parse, filter_chars] at h
  split at h
  · exact nomatch h
  · split at h
    · exact nomatch h
    · rename_i hempty hsc at_ hat
      split at h
      · exact nomatch h
      · rename_i hat0
        split at h
        · exact nomatch h
        · rename_i hsc2 j hdot
          split at h
          · exact nomatch h
          · rename_i hdotlen
            split at h
            · exact nomatch h
            · split at h
              · exact nomatch h
              · split at h
                · rename_i hlen
                  rw [find_last_eq_lastIdx] at hat
                  rw [find_last_eq_lastIdx, lastIdx_drop] at hdot
                  rcases hd : lastIdx (List.filter emailAllowed s) '.' with _ | d
                  · simp only [hd] at hdot
                    exact nomatch hdot
                  · simp only [hd] at hdot
                    by_cases hle : at_ ≤ d
                    · rw [if_pos hle] at hdot
                      cases hdot
                      obtain ⟨hatlt, hatget⟩ := lastIdx_getElem hat
                      obtain ⟨hdlt, hdget⟩ := lastIdx_getElem hd
                      have hnead : at_ ≠ d := by
                        intro he
                        rw [he, hdget] at hatget
                        exact absurd (Option.some.inj hatget) (by decide)
                      simp only [EMAIL_LEN_MIN] at hlen
                      omega
                    · rw [if_neg hle] at hdot
                      exact nomatch hdot
                · split at h
                  · exact nomatch h
                  · exact nomatch h
/-- Claim C6: the TooShort branch of `Email::parse` is unreachable — the
structural checks (non-empty, last `@` at non-zero index, a `.` at or after
it, that `.` not final) force the filtered length to be at least 4, so the
parser never returns `TooShort`. -/
theorem email_parse_never_tooShort (s : List Char) :
    resultIsTooShort (Email.parse s) = false := by
  rcases h : Email.parse s with e | v
  · cases e
    · rfl
    · exact absurd h (email_tooShort_unreachable s)
    · rfl
  · rfl

/-- Claim C3: `Email::parse` filters to ASCII alphanumerics plus `-` `_`
`@` `.` and then applies its checks in the claimed order with the first
failing check winning (Empty, no `@`, `@` at index 0, no `.` at or after
the last `@`, `.` final, all-digit local part, first char not alphabetic,
TooShort, truncation) — it equals the spec-worded `Email.parseSpec`, so in
particular Malformed takes precedence over TooShort. -/
theorem email_parse_eq_parseSpec (s : List Char) :
    Email.parse s = Email.parseSpec s := by
  simp only [Email.parse, Email.parseSpec, filter_chars]
  rcases hf : s.filter emailAllowed with _ | ⟨x, xs⟩
  · rfl
  · rw [find_last_eq_lastIdx]
    rcases ha : lastIdx (x :: xs) '@' with _ | a <;> simp only [ha]
    · rfl
    · by_cases ha0 : a = 0
      · simp [ha0]
      · rw [if_neg ha0, if_neg ha0, find_last_eq_lastIdx, lastIdx_drop]
        rcases hd : lastIdx (x :: xs) '.' with _ | d <;> simp only [hd]
        · rfl
        · by_cases hled : a ≤ d
          · simp only [if_pos hled]
            rw [Nat.sub_add_cancel hled]
            rfl
          · simp only [if_neg hled]
            rfl
/-- Extracted facts about a successfully parsed password: every kept
character satisfies the password predicate and the length is at most 19. -/
theorem password_parse_ok_props {s : List Char} {p : Password}
    (h : Password.parse s = .ok p) :
    (∀ c ∈ p.chars, passwordAllowed c = true) ∧
    p.chars.length ≤ PASSWORD_LEN_MAX := by
  simp only [Password.parse, filter_chars] at h
  split at h
  · exact nomatch h
  · split at h
    · exact nomatch h
    · split at h
      · cases h
        refine ⟨fun c hc => (List.mem_filter.mp (List.take_subset _ _ hc)).2, ?_⟩
        simp only [List.length_take]
        omega
      · rename_i hlong
        cases h
        refine ⟨fun c hc => (List.mem_filter.mp hc).2, ?_⟩
        simp only [gt_iff_lt, not_lt] at hlong
        exact hlong

/-- Claim C2 (amended): parsing an accepted value again succeeds with the
same value — unconditionally for `Name` and `Password`, and for `Email`
whenever the filtered string needed no truncation (length at most 49). The
unamended claim fails for `Email` under truncation, see the
counterexample. -/
theorem parse_idempotent :
    (∀ s v, Name.parse s = .ok v → Name.parse v.as_str = .ok v) ∧
    (∀ s v, Password.parse s = .ok v → Password.parse v.as_str = .ok v) ∧
    (∀ s v, (filter_chars s emailAllowed).length ≤ EMAIL_LEN_MAX →
      Email.parse s = .ok v → Email.parse v.as_str = .ok v) := by
  refine ⟨?_, ?_, ?_⟩
  · intro s v h
    simp only [Name.parse, filter_chars] at h ⊢
    split at h
    · exact nomatch h
    · split at h
      · exact nomatch h
      · rename_i hemp hshort
        split at h
        · rename_i hlong
          cases h
          have hlen14 : ((s.filter isAsciiAlphanumeric).take NAME_LEN_MAX).length = NAME_LEN_MAX := by
            rw [List.length_take]
            simp only [NAME_LEN_MAX] at *
            omega
          simp only [Name.as_str]
          rw [filter_take_filter]
          rw [if_neg (by simp only [List.isEmpty_iff_length_eq_zero, hlen14]; decide)]
          rw [if_neg (by rw [hlen14]; decide)]
          rw [if_neg (by rw [hlen14]; decide)]
        · rename_i hlong
          cases h
          simp only [Name.as_str]
          rw [filter_idem, if_neg hemp, if_neg hshort, if_neg hlong]
  · intro s v h
    simp only [Password.parse, filter_chars] at h ⊢
    split at h
    · exact nomatch h
    · split at h
      · exact nomatch h
      · rename_i hemp hshort
        split at h
        · rename_i hlong
          cases h
          have hlen19 : ((s.filter passwordAllowed).take PASSWORD_LEN_MAX).length = PASSWORD_LEN_MAX := by
            rw [List.length_take]
            simp only [PASSWORD_LEN_MAX] at *
            omega
          simp only [Password.as_str]
          rw [filter_take_filter]
          rw [if_neg (by simp only [List.isEmpty_iff_length_eq_zero, hlen19]; decide)]
          rw [if_neg (by rw [hlen19]; decide)]
          rw [if_neg (by rw [hlen19]; decide)]
        · rename_i hlong
          cases h
          simp only [Password.as_str]
          rw [filter_idem, if_neg hemp, if_neg hshort, if_neg hlong]
  · intro s v hlen h
    simp only [Email.parse, filter_chars] at h hlen ⊢
    split at h
    · exact nomatch h
    · rename_i hemp
      split at h
      · exact nomatch h
      · rename_i hsc at_ hat
        split at h
        · exact nomatch h
        · rename_i hat0
          split at h
          · exact nomatch h
          · rename_i hsc2 j hdot
            split at h
            · exact nomatch h
            · rename_i hdl
              split at h
              · exact nomatch h
              · rename_i hdig
                split at h
                · exact nomatch h
                · rename_i halpha
                  split at h
                  · exact nomatch h
                  · rename_i hshort
                    split at h
                    · rename_i hlong
                      exfalso
                      simp only [EMAIL_LEN_MAX] at hlen hlong
                      omega
                    · rename_i hlong
                      cases h
                      simp only [Email.as_str, filter_idem, hat, hdot]
                      rw [if_neg hemp, if_neg hat0, if_neg hdl, if_neg hdig,
                        if_neg halpha, if_neg hshort, if_neg hlong]

/-- Witness for the amended C2 theorem at concrete inputs. -/
theorem parse_idempotent_witness :
    Name.parse (Name.mk (("babygronk").toList)).as_str =
      .ok (Name.mk (("babygronk").toList)) ∧
    Password.parse (Password.mk (("_deez-nuts").toList)).as_str =
      .ok (Password.mk (("_deez-nuts").toList)) ∧
    Email.parse (Email.mk (("a_@.d").toList)).as_str =
      .ok (Email.mk (("a_@.d").toList)) :=
  ⟨parse_idempotent.1 (("babygronk???").toList) _ rfl,
   parse_idempotent.2.1 (("_deez-nuts???").toList) _ rfl,
   parse_idempotent.2.2 (("a_@.d").toList) _ (by decide) rfl⟩

/-- Counterexample to claim C2 as stated: a 50-character valid address is
truncated to 49 characters ending in `.`, and the accepted value re-parses
as Malformed instead of Ok. -/
theorem email_idempotence_counterexample :
    Email.parse (("a@bbbbbbbbbbbbbbbbbbbbbbbbbbbbbbbbbbbbbbbbbbbbbb.z").toList) =
      .ok ⟨("a@bbbbbbbbbbbbbbbbbbbbbbbbbbbbbbbbbbbbbbbbbbbbbb.").toList⟩ ∧
    Email.parse (("a@bbbbbbbbbbbbbbbbbbbbbbbbbbbbbbbbbbbbbbbbbbbbbb.").toList) =
      .error .Malformed :=
  ⟨rfl, rfl⟩

/-- Claim C1 fails on the code: `verify_gjp2` hands the candidate
plaintext directly to `bcrypt::verify` without re-deriving the SHA-1 stage,
so for any successfully parsed password (at most 19 bytes) the stored
verifier — a bcrypt hash over the 20-byte SHA-1 output — can never match:
the round trip returns `Ok(false)`, not `Ok(true)`. -/
theorem verify_gjp2_roundtrip_false (sha1 : List Nat → List Nat) (salt : Nat)
    (s : List Char) (p : Password) (gjp2 : Gjp2)
    (hs : ∀ l, (sha1 l).length = 20)
    (hp : Password.parse s = .ok p)
    (hg : (Gjp2Generator.generate_gjp2 sha1 idealBcryptHash salt
        (Gjp2Generator.new Sha1.init) p).1 = .ok gjp2) :
    verify_gjp2 idealBcryptVerify p.as_str gjp2 = .ok false := by
  obtain ⟨hmem, hlen⟩ := password_parse_ok_props hp
  simp only [Gjp2Generator.generate_gjp2, Gjp2Generator.new, Sha1.update,
    Sha1.finalize, Sha1.init, idealBcryptHash, List.nil_append] at hg
  cases hg
  simp only [verify_gjp2, idealBcryptVerify, bcrypt_verify_raw, Gjp2.as_hash,
    Gjp2.new, bcrypt_hash_raw]
  have hbytes : strBytes p.as_str = p.as_str.map Char.toNat :=
    strBytes_of_ascii _ (fun c hc => passwordAllowed_ascii (hmem c hc))
  have hblen : (strBytes p.as_str).length ≤ PASSWORD_LEN_MAX := by
    rw [hbytes, List.length_map]
    exact hlen
  have h20 : (sha1 (strBytes (p.as_str ++ SUFFIX))).length = 20 := hs _
  rw [if_neg ?hne]
  case hne =>
    intro hEq
    have hL := congrArg List.length hEq
    simp only [List.length_take, h20, PASSWORD_LEN_MAX] at hL hblen
    omega

/-- Witness for the round-trip failure at the concrete password
`abcdef` with a fixed 20-byte digest function. -/
theorem verify_gjp2_roundtrip_false_witness :
    verify_gjp2 idealBcryptVerify (Password.mk (("abcdef").toList)).as_str
      (Gjp2.new (bcrypt_hash_raw (List.replicate 20 0) DEFAULT_COST 0)) =
      .ok false :=
  verify_gjp2_roundtrip_false (fun _ => List.replicate 20 0) 0
    (("abcdef").toList) (Password.mk (("abcdef").toList))
    (Gjp2.new (bcrypt_hash_raw (List.replicate 20 0) DEFAULT_COST 0))
    (fun l => by simp) rfl rfl

end GeometryDeez
